import Mathlib

/-!
Shallow embedding of the `taskit` time-journal program (Rust sources
`src/common.rs`, `src/output.rs`, `src/input.rs`, `src/main.rs`) and proofs
about it.

Modelling conventions:
* Rust `u8` / `usize` / `u16` values are `Nat`; `i64` arithmetic is `Int`
  (the values involved stay far below every overflow bound).
* `chrono::NaiveDate` is an abstract day number `Int` (only equality,
  ordering and map-key use occur in the embedded code).
* `chrono::TimeDelta` is an `Int` of minutes (the code only constructs
  deltas via `TimeDelta::minutes` and adds them).
* Rust `String` is Lean `String`; byte-level operations on ASCII data are
  modelled on `List Char`.
* `HashMap` is an association list; the embedded code never iterates a
  `HashMap` (only `get`/`insert`), so iteration order does not matter.
  `BTreeMap` is an association list kept sorted by key.
* A Rust function that can panic is modelled with an explicit failure value
  (`Option`, or the `panicked` constructor of `ApplyResult`), produced at
  exactly the program points where the Rust code panics.
-/

namespace Taskit

/-- `chrono::NaiveDate`, abstracted to a day number. -/
abbrev NaiveDate := Int

/-- `struct SimpleTime { hour: u8, minute: u8 }` from `common.rs`. -/
structure SimpleTime where
  hour : Nat
  minute : Nat
deriving DecidableEq, Repr

/-- `SimpleTime::try_new` (`common.rs`): accepts `hour < 24 && minute < 60`. -/
def SimpleTime.try_new (hour minute : Nat) : Option SimpleTime :=
  if hour < 24 ∧ minute < 60 then some ⟨hour, minute⟩ else none

/-- Rust `str::parse::<u8>`: an optional leading `'+'`, then one or more
ASCII digits, value at most 255; anything else is an error. -/
def parseU8 (cs : List Char) : Option Nat :=
  let ds := match cs with
    | '+' :: rest => rest
    | _ => cs
  if ds.isEmpty then none
  else if ds.all Char.isDigit then
    let n := ds.foldl (fun acc c => acc * 10 + (c.toNat - 48)) 0
    if n ≤ 255 then some n else none
  else none

/-- `<SimpleTime as FromStr>::from_str` (`common.rs`), on the char list of
the input: split at the first `':'` if any, else split a length-4 string in
the middle, parse both halves as `u8`, then validate with `try_new`. -/
def SimpleTime.from_str (cs : List Char) : Option SimpleTime := do
  let (hour, minute) ←
    match cs.findIdx? (· = ':') with
    | some idx => some (cs.take idx, (cs.drop idx).drop 1)
    | none =>
      if cs.length = 4 then some (cs.take 2, cs.drop 2) else none
  let h ← parseU8 hour
  let m ← parseU8 minute
  SimpleTime.try_new h m

/-- The decimal digits of `n`, as characters. -/
def natChars (n : Nat) : List Char := (Nat.repr n).data

/-- Rust `format!("{:02}", n)` for a `u8` value: zero-pad to width 2. -/
def pad2 (n : Nat) : List Char :=
  if n < 10 then '0' :: natChars n else natChars n

/-- `<SimpleTime as Display>::fmt` (`common.rs`): `"{:02}:{:02}"`. -/
def SimpleTime.display (t : SimpleTime) : List Char :=
  pad2 t.hour ++ ':' :: pad2 t.minute

/-- Minutes since midnight, as in the `Sub` impl's intermediate values. -/
def SimpleTime.totalMinutes (t : SimpleTime) : Int :=
  (t.hour : Int) * 60 + (t.minute : Int)

/-- `<SimpleTime as Sub>::sub` (`common.rs`): difference in minutes,
wrapped into the next day when negative.  The result models the returned
`TimeDelta` as its number of minutes. -/
def SimpleTime.sub (a b : SimpleTime) : Int :=
  let lhs_minute := a.totalMinutes
  let rhs_minute := b.totalMinutes
  let minutes := lhs_minute - rhs_minute
  if minutes < 0 then minutes + 60 * 24 else minutes

/-- `struct Event` from `common.rs`. -/
structure Event where
  start_time : SimpleTime
  end_time : SimpleTime
  date : NaiveDate
  category : String
  comments : String
deriving DecidableEq, Repr

/-- `struct Categories { options: Vec<String> }` from `common.rs`. -/
structure Categories where
  options : List String
deriving DecidableEq, Repr

instance : Inhabited Categories := ⟨⟨[]⟩⟩

/-- `enum DeltaItem` from `common.rs`. -/
inductive DeltaItem where
  | addCategory (category : String)
  | renameCategory (old new : String)
  | archiveCategory (category : String)
  | addEvent (event : Event)
  | changeEvent (index : Nat) (new_event : Event)
  | addTag (tag : String)
  | tagCategory (category tag : String)
  | setDailyNote (date : NaiveDate) (note : String)
deriving DecidableEq, Repr

/-- `struct SaveDataV1` from `common.rs`. -/
structure SaveDataV1 where
  categories : Categories
  events : List Event
deriving DecidableEq, Repr

/-- `struct SaveDataV2` from `common.rs`. -/
structure SaveDataV2 where
  categories : Categories
  archived_categories : Categories
  events : List Event
deriving DecidableEq, Repr

/-- `struct SaveDataV3` from `common.rs`.  `tag_map` is the
`HashMap<String, Vec<String>>` as an association list. -/
structure SaveDataV3 where
  categories : Categories
  archived_categories : Categories
  tags : List String
  tag_map : List (String × List String)
  events : List Event
deriving DecidableEq, Repr

/-- `struct SaveDataV4` from `common.rs`; `SaveData` is an alias for it. -/
structure SaveDataV4 where
  categories : Categories
  archived_categories : Categories
  tags : List String
  tag_map : List (String × List String)
  events : List Event
  daily_notes : List (NaiveDate × String)
deriving DecidableEq, Repr

/-- `pub type SaveData = SaveDataV4;` -/
abbrev SaveData := SaveDataV4

/-- `Default` for `SaveDataV4` (all collections empty). -/
def SaveData.empty : SaveData := ⟨⟨[]⟩, ⟨[]⟩, [], [], [], []⟩

instance : Inhabited SaveData := ⟨SaveData.empty⟩

/-- `HashMap::contains_key` on the association-list model. -/
def mapContainsKey (m : List (String × List String)) (k : String) : Bool :=
  m.any (fun p => p.1 = k)

/-- `HashMap::get` on the association-list model (first matching key). -/
def mapGet (m : List (String × List String)) (k : String) :
    Option (List String) :=
  (m.find? (fun p => p.1 = k)).map Prod.snd

/-- `HashMap::insert` on the association-list model: replace the entry if
the key is present, else add it. -/
def mapInsert (m : List (String × List String)) (k : String)
    (v : List String) : List (String × List String) :=
  if mapContainsKey m k then
    m.map (fun p => if p.1 = k then (k, v) else p)
  else
    m ++ [(k, v)]

/-- `HashMap::insert` for the `daily_notes` map. -/
def notesInsert (m : List (NaiveDate × String)) (k : NaiveDate)
    (v : String) : List (NaiveDate × String) :=
  if m.any (fun p => p.1 = k) then
    m.map (fun p => if p.1 = k then (k, v) else p)
  else
    m ++ [(k, v)]

/-- Outcome of one Rust call to `SaveData::apply`.  The Rust signature is
`Result<(), Box<dyn Error>>` on a `&mut self`; we carry the (possibly
mutated) state explicitly.  `error` models a returned `Err`, `panicked`
models a Rust panic (`todo!()`, index out of bounds); in either failure the
carried state is the state at the failure point. -/
inductive ApplyResult where
  | ok (s : SaveData)
  | error (msg : String) (s : SaveData)
  | panicked (msg : String) (s : SaveData)
deriving DecidableEq, Repr

/-- Whether the call returned `Err(_)` (as opposed to `Ok` or a panic). -/
def ApplyResult.isError : ApplyResult → Bool
  | .error _ _ => true
  | _ => false

/-- The panic message of a Rust out-of-bounds slice index. -/
def indexOutOfBoundsMsg : String := "index out of bounds"

/-- The panic message of `todo!()`. -/
def todoMsg : String := "not yet implemented"

/-- `impl Apply<DeltaItem> for SaveData` (`common.rs`, lines 83–111):
one intent applied to the state.  Every arm ends in `Ok(())`; the
`RenameCategory` arm is `todo!()` (a panic) and the `ChangeEvent` arm
panics when `index` is out of bounds of `events`. -/
def applyItem (s : SaveData) (delta : DeltaItem) : ApplyResult :=
  match delta with
  | .addCategory category =>
    if s.categories.options.contains category then .ok s
    else .ok { s with categories := ⟨s.categories.options ++ [category]⟩ }
  | .renameCategory _ _ => .panicked todoMsg s
  | .addEvent event => .ok { s with events := s.events ++ [event] }
  | .changeEvent index new_event =>
    if index < s.events.length then
      .ok { s with events := s.events.set index new_event }
    else
      .panicked indexOutOfBoundsMsg s
  | .archiveCategory category =>
    .ok { s with
          categories := ⟨s.categories.options.filter (fun x => x ≠ category)⟩,
          archived_categories :=
            ⟨s.archived_categories.options ++ [category]⟩ }
  | .addTag tag =>
    if s.tags.contains tag then .ok s
    else .ok { s with tags := s.tags ++ [tag] }
  | .tagCategory category tag =>
    let s :=
      if mapContainsKey s.tag_map category then s
      else { s with tag_map := mapInsert s.tag_map category [] }
    match mapGet s.tag_map category with
    | some tags =>
      if tags.contains tag then .ok s
      else .ok { s with tag_map := mapInsert s.tag_map category (tags ++ [tag]) }
    | none => .panicked indexOutOfBoundsMsg s
  | .setDailyNote date note =>
    .ok { s with daily_notes := notesInsert s.daily_notes date note }

/-- `impl Apply<Vec<DeltaItem>> for SaveData` (`common.rs`, lines 113–120):
fold the intents left to right, stopping at the first failure. -/
def applyList (s : SaveData) : List DeltaItem → ApplyResult
  | [] => .ok s
  | d :: ds =>
    match applyItem s d with
    | .ok s' => applyList s' ds
    | r => r

/-- Sequencing used to state `apply(apply(s, a), b)`: run the second list
only if the first application succeeded. -/
def ApplyResult.andThen (r : ApplyResult) (ds : List DeltaItem) :
    ApplyResult :=
  match r with
  | .ok s => applyList s ds
  | r => r

/-- `enum SaveDataVersioned` from `common.rs`. -/
inductive SaveDataVersioned where
  | v1 (d : SaveDataV1)
  | v2 (d : SaveDataV2)
  | v3 (d : SaveDataV3)
  | v4 (d : SaveDataV4)
deriving DecidableEq, Repr

namespace SaveDataVersioned

/-- `Default for SaveDataVersioned`: `V4(Default::default())`. -/
def default : SaveDataVersioned := .v4 SaveData.empty

/-- `impl Upgrade for SaveDataV1` (`common.rs`): new `archived_categories`
field at its default, everything else carried over. -/
def upgradeV1 (d : SaveDataV1) : SaveDataV2 :=
  { categories := d.categories
    archived_categories := ⟨[]⟩
    events := d.events }

/-- `impl Upgrade for SaveDataV2` (`common.rs`): new `tags` and `tag_map`
fields at their defaults, everything else carried over. -/
def upgradeV2 (d : SaveDataV2) : SaveDataV3 :=
  { categories := d.categories
    archived_categories := d.archived_categories
    tags := []
    tag_map := []
    events := d.events }

/-- `impl Upgrade for SaveDataV3` (`common.rs`): new `daily_notes` field at
its default, everything else carried over. -/
def upgradeV3 (d : SaveDataV3) : SaveDataV4 :=
  { categories := d.categories
    archived_categories := d.archived_categories
    tags := d.tags
    tag_map := d.tag_map
    events := d.events
    daily_notes := [] }

/-- `SaveDataVersioned::outdated`. -/
def outdated : SaveDataVersioned → Bool
  | .v4 _ => false
  | _ => true

/-- `SaveDataVersioned::upgrade_once`; panics (`none`) on `V4`. -/
def upgrade_once : SaveDataVersioned → Option SaveDataVersioned
  | .v1 d => some (.v2 (upgradeV1 d))
  | .v2 d => some (.v3 (upgradeV2 d))
  | .v3 d => some (.v4 (upgradeV3 d))
  | .v4 _ => none

/-- `SaveDataVersioned::as_latest`; panics (`none`) on anything but `V4`. -/
def as_latest : SaveDataVersioned → Option SaveData
  | .v4 d => some d
  | _ => none

/-- The `while self.outdated() { self = self.upgrade_once(); }` loop of
`SaveDataVersioned::extract`, run with explicit fuel (three steps suffice
for the four-revision chain). -/
def upgradeLoop : Nat → SaveDataVersioned → Option SaveDataVersioned
  | 0, s => if outdated s then none else some s
  | fuel + 1, s =>
    if outdated s then
      match upgrade_once s with
      | some s' => upgradeLoop fuel s'
      | none => none
    else some s

/-- `SaveDataVersioned::extract` (`common.rs`, lines 316–328): returns the
latest revision and whether any upgrade step ran.  `none` would mean the
upgrade loop failed to reach `V4` within three steps (it never does). -/
def extract (s : SaveDataVersioned) : Option (SaveData × Bool) :=
  match s with
  | .v4 d => some (d, false)
  | s => do
    let s' ← upgradeLoop 3 s
    let d ← as_latest s'
    pure (d, true)

end SaveDataVersioned

/-! ### Dashboard (`output.rs`) -/

/-- `enum Filter` from `output.rs`. -/
inductive Filter where
  | startDate (date : NaiveDate)
  | endDate (date : NaiveDate)
  | category (category : String)
  | description (description : String)
deriving DecidableEq, Repr

/-- Rust `str::contains` (substring test), on the underlying char lists. -/
def strContains (haystack needle : String) : Bool :=
  decide (List.IsInfix needle.data haystack.data)

/-- `impl CanFilter for Filter` (`output.rs`, lines 100–109). -/
def Filter.holds : Filter → Event → Bool
  | .startDate date, ev => decide (date ≤ ev.date)
  | .endDate date, ev => decide (ev.date ≤ date)
  | .category c, ev => decide (ev.category = c)
  | .description d, ev => strContains ev.comments d

/-- `impl CanFilter for Vec<Filter>`: conjunction of all filters. -/
def filtersHold (fs : List Filter) (ev : Event) : Bool :=
  fs.all (fun f => f.holds ev)

/-- `impl CanFilter for Option<Filter>`: vacuously true when absent. -/
def optFilterHolds (f : Option Filter) (ev : Event) : Bool :=
  match f with
  | none => true
  | some f => f.holds ev

/-- `impl CanFilter for (&Vec<Filter>, &Option<Filter>)`: both sides. -/
def pairFilterHolds (fs : List Filter) (ef : Option Filter) (ev : Event) :
    Bool :=
  filtersHold fs ev && optFilterHolds ef ev

/-- `enum FilterCategory` from `output.rs` (four variants). -/
inductive FilterCategory where
  | startDate
  | endDate
  | category
  | description
deriving DecidableEq, Repr

/-- `FilterCategory::SIZE` (`output.rs`, line 82).  Its value in the source
is `3`, although the enum has four variants. -/
def FilterCategory.SIZE : Nat := 3

/-- The `Message::TabLeft` arm of `State::handle_message` (`output.rs`,
line 184): `self.header_highlight.saturating_sub(1)` (Nat subtraction). -/
def tabLeft (header_highlight : Nat) : Nat := header_highlight - 1

/-- The `Message::TabRight` arm of `State::handle_message` (`output.rs`,
line 185): `min(self.header_highlight + 1, FilterCategory::SIZE)`. -/
def tabRight (header_highlight : Nat) : Nat :=
  min (header_highlight + 1) FilterCategory.SIZE

/-- The fields of `struct State` (`output.rs`) that the rendering and
aggregation code reads. -/
structure DashboardState where
  categories : Categories
  archived_categories : Categories
  tags : List String
  tag_map : List (String × List String)
  daily_notes : List (NaiveDate × String)
  events : List Event
  scroll_position : Nat
  header_highlight : Nat
  applied_filters : List Filter
  editing_filter : Option Filter
deriving DecidableEq, Repr

/-- The filtered event set the dashboard renders and aggregates:
`self.events.iter().filter(|ev| (&self.applied_filters, &self.editing_filter).filter(ev))`. -/
def filteredEvents (st : DashboardState) : List Event :=
  st.events.filter
    (fun ev => pairFilterHolds st.applied_filters st.editing_filter ev)

/-- Wrap-aware per-event duration `ev.end_time - ev.start_time`, in
minutes. -/
def Event.duration (ev : Event) : Int := ev.end_time.sub ev.start_time

/-- Insertion of a key into a sorted `BTreeMap` key list: keeps the list
strictly sorted, replacing an equal key. -/
def insertKey (k : String) : List String → List String
  | [] => [k]
  | x :: xs =>
    if k < x then k :: x :: xs
    else if k = x then x :: xs
    else x :: insertKey k xs

/-- The key set a `collect::<BTreeMap<_, _>>()` ends with: each key
inserted into a sorted list. -/
def sortedKeys (ks : List String) : List String :=
  ks.foldl (fun acc k => insertKey k acc) []

/-- `ks.iter().map(|k| (k, TimeDelta::zero())).collect::<BTreeMap<_, _>>()`:
a sorted association list mapping each key to zero. -/
def zeroMap (ks : List String) : List (String × Int) :=
  (sortedKeys ks).map (fun k => (k, 0))

/-- `map.get_mut(k).map(|t| *t += d)` on a `BTreeMap` model: add `d` at
key `k` if the key is present, otherwise do nothing. -/
def addIfMember (m : List (String × Int)) (k : String) (d : Int) :
    List (String × Int) :=
  m.map (fun p => if p.1 = k then (p.1, p.2 + d) else p)

/-- `BTreeMap::get` on the model. -/
def getVal (m : List (String × Int)) (k : String) : Option Int :=
  (m.find? (fun p => p.1 = k)).map Prod.snd

/-- The `category_sums` computation of `State::render` (`output.rs`,
lines 363–371): start from every *active* category at zero and fold the
filtered events, adding each event's duration at its category's entry if
that entry exists. -/
def categorySums (st : DashboardState) : List (String × Int) :=
  (filteredEvents st).foldl
    (fun map ev => addIfMember map ev.category ev.duration)
    (zeroMap st.categories.options)

/-- `self.tag_map.get(cat).unwrap_or(&vec![])`. -/
def tagMapGet (tm : List (String × List String)) (c : String) :
    List String :=
  (mapGet tm c).getD []

/-- `*map.get_mut(tag).unwrap() += dur`: `none` models the `unwrap` panic
when the tag is not a key of the map. -/
def addOrPanic (m : List (String × Int)) (k : String) (d : Int) :
    Option (List (String × Int)) :=
  if m.any (fun p => p.1 = k) then some (addIfMember m k d) else none

/-- The inner `for tag in …` loop of the `tag_sums` fold. -/
def addAllOrPanic (m : List (String × Int)) (tags : List String)
    (d : Int) : Option (List (String × Int)) :=
  match tags with
  | [] => some m
  | t :: ts => (addOrPanic m t d).bind (fun m' => addAllOrPanic m' ts d)

/-- The `tag_sums` computation of `State::render` (`output.rs`, lines
372–381): start from every registered tag at zero and fold the category
sums, adding each category's total at every tag attached to it. -/
def tagSums (st : DashboardState) : Option (List (String × Int)) :=
  (categorySums st).foldl
    (fun acc p => acc.bind (fun m => addAllOrPanic m (tagMapGet st.tag_map p.1) p.2))
    (some (zeroMap st.tags))

/-- The displayed `all` total (`output.rs`, line 386):
`category_sums.values().sum()`. -/
def allTotal (st : DashboardState) : Int :=
  ((categorySums st).map Prod.snd).sum

/-- The total duration of the filtered events carrying category `c`. -/
def sumOfCategory (evs : List Event) (c : String) : Int :=
  ((evs.filter (fun ev => ev.category = c)).map Event.duration).sum

/-- Spec-side formulation of the per-category aggregation (§4.6 of the
spec): every active category, in sorted order, mapped to the total
duration of the filtered events matching it (zero when none match). -/
def categorySumsSpec (st : DashboardState) : List (String × Int) :=
  (zeroMap st.categories.options).map
    (fun p => (p.1, sumOfCategory (filteredEvents st) p.1))

/-- Spec-side formulation of the per-tag aggregation (§4.6 of the spec):
every registered tag, in sorted order, mapped to the sum of the
already-computed totals of the categories whose tag-map entry contains
it. -/
def tagSumsSpec (st : DashboardState) : List (String × Int) :=
  (zeroMap st.tags).map
    (fun p =>
      (p.1,
       (((categorySums st).filter
           (fun q => (tagMapGet st.tag_map q.1).contains p.1)).map
         Prod.snd).sum))

/-! ### The CLI binary (`main.rs`)

`main.rs` carries its own copies of the V1-era data types: its
`SaveDataVersioned` has a single `V1` variant and its `SaveData` is the
two-field `SaveDataV1` shape (structurally identical to
`common.rs`'s `SaveDataV1`, which we reuse). -/

/-- `enum SaveDataVersioned` as declared in `main.rs`: only `V1`. -/
inductive MainVersioned where
  | v1 (d : SaveDataV1)
deriving DecidableEq, Repr

/-- `SaveDataVersioned::upgrade` from `main.rs`: `V1` is already the
latest revision there, so no step ever runs. -/
def MainVersioned.upgrade : MainVersioned → SaveDataV1 × Bool
  | .v1 d => (d, false)

/-- The state `main` (`main.rs`, lines 160–169) starts from: the parsed
and upgraded file contents when the file opens, the default otherwise.
(`read` is what reading and deserializing the save file yields.) -/
def mainLoad (read : Option MainVersioned) : SaveDataV1 :=
  match read with
  | some v => v.upgrade.1
  | none => ⟨⟨[]⟩, []⟩

/-- One file-system operation performed by `main`'s save path. -/
inductive FileOp where
  | create (path : String)
  | writeAll (path : String) (data : MainVersioned)
  | rename (src dst : String)
deriving DecidableEq, Repr

/-- `fn main` (`main.rs`, lines 149–183), with its environment explicit:
`read1` is what reading the save file yields at startup (`none`: the file
did not open); `readLater` is what a second read of the file would yield
after the interactive phase — the parameter records the contents a reload
would see; `interact` stands for the chosen subcommand's interactive phase
(`record_main` / `stopwatch_main`), which receives the loaded state and
returns the new full state to persist (`none`: nothing to persist).  The
result is the content written to the canonical save path, `none` when no
write happens. -/
def mainRun (read1 readLater : Option MainVersioned)
    (interact : SaveDataV1 → Option SaveDataV1) : Option MainVersioned :=
  let save_data := mainLoad read1
  match interact save_data with
  | some save_data => some (.v1 save_data)
  | none => none

/-- The file operations `main` performs when persisting (`main.rs`, lines
176–182): create a sibling temporary file `new_save.json`, write the
serialized state to it, and rename it over `save.json`. -/
def mainFileOps (read1 readLater : Option MainVersioned)
    (interact : SaveDataV1 → Option SaveDataV1) : List FileOp :=
  match mainRun read1 readLater interact with
  | some written =>
    [.create "new_save.json", .writeAll "new_save.json" written,
     .rename "new_save.json" "save.json"]
  | none => []

/-- Modelled from the spec (§4.3 `run_command`), named for comparison with
`mainRun`: `state0 = extract(load(path))`; the interactive phase produces
an intent list from `state0`; `state1 = extract(load(path))` is reloaded;
`state2 = apply(state1, intents)` is written atomically.  `read1` and
`read2` are the file contents at the two load points; the result is the
state written (`none` when applying fails). -/
def specPersistence (read1 read2 : Option SaveDataVersioned)
    (interact : SaveData → List DeltaItem) : Option SaveData :=
  let state0 :=
    match read1 with
    | some v => ((v.extract).map Prod.fst).getD SaveData.empty
    | none => SaveData.empty
  let intents := interact state0
  let state1 :=
    match read2 with
    | some v => ((v.extract).map Prod.fst).getD SaveData.empty
    | none => SaveData.empty
  match applyList state1 intents with
  | .ok state2 => some state2
  | _ => none

/-! ### Auxiliary predicates and concrete values used in the statements -/

/-- Whether applying `d` in state `s` is an `AddCategory` of a name that
is currently archived (the one intent shape that re-activates an archived
name without removing it from the archived set). -/
def readdsArchived (s : SaveData) (d : DeltaItem) : Bool :=
  match d with
  | .addCategory c => s.archived_categories.options.contains c
  | _ => false

/-- `GoodApply s ds s'`: applying `ds` to `s` step by step succeeds with
result `s'`, and no step is an `AddCategory` of a then-archived name. -/
inductive GoodApply : SaveData → List DeltaItem → SaveData → Prop where
  | nil (s : SaveData) : GoodApply s [] s
  | cons (s s₁ s₂ : SaveData) (d : DeltaItem) (ds : List DeltaItem) :
      readdsArchived s d = false →
      applyItem s d = .ok s₁ →
      GoodApply s₁ ds s₂ →
      GoodApply s (d :: ds) s₂

/-- The active and archived category sets of `s` are disjoint. -/
def disjointCats (s : SaveData) : Bool :=
  s.categories.options.all
    (fun c => !(s.archived_categories.options.contains c))

/-- A concrete event used in counterexamples and witnesses: 09:00–17:30 on
day 0, category `"Work"`. -/
def exEvent : Event :=
  { start_time := ⟨9, 0⟩, end_time := ⟨17, 30⟩, date := 0,
    category := "Work", comments := "" }

/-- A second concrete event: 07:00–08:00 on day 1, category `"A"`. -/
def exEvent2 : Event :=
  { start_time := ⟨7, 0⟩, end_time := ⟨8, 0⟩, date := 1,
    category := "A", comments := "" }

/-- A dashboard state whose single event's category `"Work"` is archived
(not active): used against claim C2. -/
def archivedDash : DashboardState :=
  { categories := ⟨[]⟩, archived_categories := ⟨["Work"]⟩, tags := [],
    tag_map := [], daily_notes := [], events := [exEvent],
    scroll_position := 0, header_highlight := 0, applied_filters := [],
    editing_filter := none }

/-- A small well-formed dashboard state (one active category `"A"` with
tag `"t"`, one matching event) used as the witness input for C6. -/
def wfDash : DashboardState :=
  { categories := ⟨["A", "B"]⟩, archived_categories := ⟨[]⟩,
    tags := ["t"], tag_map := [("A", ["t"])], daily_notes := [],
    events := [exEvent2], scroll_position := 0, header_highlight := 0,
    applied_filters := [], editing_filter := none }

/-- Save-file contents at startup for the C3 scenario: category `"A"`,
no events. -/
def initialV1 : MainVersioned := .v1 ⟨⟨["A"]⟩, []⟩

/-- Save-file contents a reload would see in the C3 scenario: a concurrent
invocation has recorded `exEvent2`. -/
def concurrentV1 : MainVersioned := .v1 ⟨⟨["A"]⟩, [exEvent2]⟩

/-- A concrete interactive session for `main.rs`'s `record_main` shape:
the user records `exEvent` (its category already exists), so the phase
returns the input state with `exEvent` appended. -/
def sessMain : SaveDataV1 → Option SaveDataV1 :=
  fun s => some ⟨s.categories, s.events ++ [exEvent]⟩

/-- The same session expressed as the intent list the spec's protocol
expects the interactive phase to produce. -/
def sessSpec : SaveData → List DeltaItem :=
  fun _ => [.addEvent exEvent]

/-- A state with active category `"Work"` and one `"Work"` event, about to
archive `"Work"`. -/
def preArchive : SaveData :=
  { SaveData.empty with categories := ⟨["Work"]⟩, events := [exEvent] }

/-- The state after applying `ArchiveCategory "Work"` to `preArchive`. -/
def postArchive : SaveData :=
  { SaveData.empty with
    categories := ⟨[]⟩
    archived_categories := ⟨["Work"]⟩
    events := [exEvent] }

/-- Intermediate states of the C4 witness run. -/
def c4s1 : SaveData := { SaveData.empty with categories := ⟨["a"]⟩ }

def c4s2 : SaveData :=
  { SaveData.empty with
    categories := ⟨[]⟩
    archived_categories := ⟨["a"]⟩ }

def c4s3 : SaveData :=
  { SaveData.empty with
    categories := ⟨["b"]⟩
    archived_categories := ⟨["a"]⟩ }

/-- The state, with `"a"` in both category sets, that the C4
counterexample run ends in. -/
def bothSetsA : SaveData :=
  { SaveData.empty with
    categories := ⟨["a"]⟩
    archived_categories := ⟨["a"]⟩ }

/-! ## Theorems -/

section Theorems

/-! ### Lemmas about the sorted-map model -/

theorem mem_insertKey (x k : String) (l : List String) :
    x ∈ insertKey k l ↔ x = k ∨ x ∈ l := by
  induction l with
  | nil => simp [insertKey]
  | cons y ys ih =>
    simp only [insertKey]
    split
    · simp [List.mem_cons]
    · split
      · rename_i hlt heq
        subst heq
        simp only [List.mem_cons]
        tauto
      · simp only [List.mem_cons, ih]
        tauto

theorem mem_foldl_insertKey (ks acc : List String) (x : String) :
    x ∈ ks.foldl (fun acc k => insertKey k acc) acc ↔ x ∈ ks ∨ x ∈ acc := by
  induction ks generalizing acc with
  | nil => simp
  | cons k ks ih =>
    rw [List.foldl_cons, ih]
    simp only [mem_insertKey, List.mem_cons]
    tauto

theorem mem_sortedKeys (ks : List String) (x : String) :
    x ∈ sortedKeys ks ↔ x ∈ ks := by
  rw [sortedKeys, mem_foldl_insertKey]
  simp

theorem pairwise_insertKey (k : String) (l : List String)
    (h : l.Pairwise (· < ·)) : (insertKey k l).Pairwise (· < ·) := by
  induction l with
  | nil => simp [insertKey]
  | cons y ys ih =>
    rw [List.pairwise_cons] at h
    obtain ⟨hy, hys⟩ := h
    simp only [insertKey]
    split
    · rename_i hlt
      rw [List.pairwise_cons]
      refine ⟨?_, List.pairwise_cons.mpr ⟨hy, hys⟩⟩
      intro z hz
      rcases List.mem_cons.mp hz with hz | hz
      · exact hz ▸ hlt
      · exact lt_trans hlt (hy z hz)
    · split
      · exact List.pairwise_cons.mpr ⟨hy, hys⟩
      · rename_i hnlt hne
        have hyk : y < k := by
          rcases lt_trichotomy k y with h | h | h
          · exact absurd h hnlt
          · exact absurd h hne
          · exact h
        rw [List.pairwise_cons]
        refine ⟨?_, ih hys⟩
        intro z hz
        rcases (mem_insertKey z k ys).mp hz with hz | hz
        · exact hz ▸ hyk
        · exact hy z hz

theorem pairwise_foldl_insertKey (ks acc : List String)
    (h : acc.Pairwise (· < ·)) :
    (ks.foldl (fun acc k => insertKey k acc) acc).Pairwise (· < ·) := by
  induction ks generalizing acc with
  | nil => exact h
  | cons k ks ih => exact ih _ (pairwise_insertKey k acc h)

theorem pairwise_sortedKeys (ks : List String) :
    (sortedKeys ks).Pairwise (· < ·) :=
  pairwise_foldl_insertKey ks [] List.Pairwise.nil

/-- Mapping a pair to its own components is the identity. -/
theorem map_fst_snd (m : List (String × Int)) :
    m.map (fun p => (p.1, p.2)) = m := by
  induction m with
  | nil => rfl
  | cons p ps ih => simp [ih]

theorem getVal_map_of_keys (ks : List String) (f : String → Int)
    (c : String) :
    getVal (ks.map (fun k => (k, f k))) c =
      if c ∈ ks then some (f c) else none := by
  induction ks with
  | nil => simp [getVal]
  | cons k ks ih =>
    simp only [getVal, List.map_cons] at ih ⊢
    by_cases hck : k = c
    · subst hck
      rw [List.find?_cons_of_pos _ (by simp)]
      simp
    · rw [List.find?_cons_of_neg _ (by simp [hck]), ih]
      simp only [List.mem_cons]
      by_cases hm : c ∈ ks
      · rw [if_pos hm, if_pos (Or.inr hm)]
      · have hnot : ¬ (c = k ∨ c ∈ ks) := by
          rintro (h | h)
          · exact hck h.symm
          · exact hm h
        rw [if_neg hm, if_neg hnot]

/-- The `category_sums` fold in closed form: folding events into any
association list adds, at each entry, the total duration of the events
carrying that entry's key. -/
theorem foldl_addIfMember (evs : List Event) (m : List (String × Int)) :
    evs.foldl (fun map ev => addIfMember map ev.category ev.duration) m
      = m.map (fun p => (p.1, p.2 + sumOfCategory evs p.1)) := by
  induction evs generalizing m with
  | nil =>
    simp only [List.foldl_nil, sumOfCategory, List.filter_nil,
      List.map_nil, List.sum_nil, add_zero]
    exact (map_fst_snd m).symm
  | cons e es ih =>
    rw [List.foldl_cons, ih]
    unfold addIfMember
    rw [List.map_map]
    apply List.map_congr_left
    intro p _
    simp only [Function.comp]
    by_cases hp : p.1 = e.category
    · rw [if_pos hp]
      simp only [sumOfCategory, List.filter_cons]
      rw [if_pos (by simp [hp])]
      simp [add_assoc]
    · rw [if_neg hp]
      simp only [sumOfCategory, List.filter_cons]
      rw [if_neg (by simp only [decide_eq_true_eq]; exact fun h => hp h.symm)]

/-- `category_sums` equals its spec-side formulation. -/
theorem categorySums_eq_spec (st : DashboardState) :
    categorySums st = categorySumsSpec st := by
  unfold categorySums categorySumsSpec
  rw [foldl_addIfMember]
  unfold zeroMap
  rw [List.map_map, List.map_map]
  apply List.map_congr_left
  intro k _
  simp

theorem keys_addIfMember (m : List (String × Int)) (k : String) (d : Int) :
    (addIfMember m k d).map Prod.fst = m.map Prod.fst := by
  unfold addIfMember
  rw [List.map_map]
  apply List.map_congr_left
  intro p _
  simp only [Function.comp]
  split <;> simp_all

theorem mem_tagMapGet (tm : List (String × List String)) (c t : String)
    (h : t ∈ tagMapGet tm c) : ∃ p ∈ tm, p.1 = c ∧ t ∈ p.2 := by
  rw [tagMapGet, mapGet] at h
  cases hfind : tm.find? (fun p => decide (p.1 = c)) with
  | none =>
    rw [hfind] at h
    exact absurd h (List.not_mem_nil t)
  | some p =>
    rw [hfind] at h
    refine ⟨p, List.mem_of_find?_eq_some hfind, ?_, h⟩
    simpa using List.find?_some hfind

/-- The inner `for tag in …` loop of `tag_sums` in closed form: when every
tag to add is a key of the map and the tag list has no duplicates, it adds
`d` at exactly those entries whose key is in the list. -/
theorem addAllOrPanic_eq (tags : List String) (m : List (String × Int))
    (d : Int) (hsub : ∀ t ∈ tags, t ∈ m.map Prod.fst)
    (hnd : tags.Nodup) :
    addAllOrPanic m tags d =
      some (m.map (fun p => if p.1 ∈ tags then (p.1, p.2 + d) else p)) := by
  induction tags generalizing m with
  | nil =>
    have heta : (fun (p : String × Int) =>
        if p.1 ∈ ([] : List String) then (p.1, p.2 + d) else p) =
        fun p => (p.1, p.2) := by
      funext p
      simp
    rw [addAllOrPanic, heta, map_fst_snd]
  | cons t ts ih =>
    have ht : t ∈ m.map Prod.fst := hsub t (List.mem_cons_self t ts)
    have hany : m.any (fun p => p.1 = t) = true := by
      simp only [List.any_eq_true, decide_eq_true_eq]
      obtain ⟨p, hp, hpt⟩ := List.mem_map.mp ht
      exact ⟨p, hp, hpt⟩
    have hstep : addOrPanic m t d = some (addIfMember m t d) := by
      unfold addOrPanic
      rw [if_pos hany]
    have hnd' := List.nodup_cons.mp hnd
    rw [addAllOrPanic, hstep, Option.some_bind,
      ih (addIfMember m t d)
        (fun u hu => by
          rw [keys_addIfMember]
          exact hsub u (List.mem_cons_of_mem t hu))
        hnd'.2]
    congr 1
    unfold addIfMember
    rw [List.map_map]
    apply List.map_congr_left
    intro p _
    simp only [Function.comp]
    by_cases hpt : p.1 = t
    · rw [if_pos hpt]
      simp [hpt, hnd'.1]
    · rw [if_neg hpt]
      simp only [List.mem_cons]
      by_cases hpts : p.1 ∈ ts <;> simp [hpts, hpt]

/-- The contribution of the already-computed category totals to tag `t`:
the sum of the totals of the entries whose tag-map list contains `t`. -/
theorem tagSums_fold (entries m : List (String × Int))
    (tm : List (String × List String))
    (hsub : ∀ c t, t ∈ tagMapGet tm c → t ∈ m.map Prod.fst)
    (hnd : ∀ c, (tagMapGet tm c).Nodup) :
    entries.foldl
      (fun acc p => acc.bind (fun mp => addAllOrPanic mp (tagMapGet tm p.1) p.2))
      (some m)
    = some (m.map (fun p =>
        (p.1,
         p.2 + ((entries.filter
             (fun q => (tagMapGet tm q.1).contains p.1)).map Prod.snd).sum))) := by
  induction entries generalizing m hsub with
  | nil =>
    simp only [List.foldl_nil, List.filter_nil, List.map_nil, List.sum_nil,
      add_zero]
    congr 1
    exact (map_fst_snd m).symm
  | cons e es ih =>
    rw [List.foldl_cons, Option.some_bind,
      addAllOrPanic_eq (tagMapGet tm e.1) m e.2 (fun t ht => hsub e.1 t ht)
        (hnd e.1)]
    rw [ih (m.map (fun p => if p.1 ∈ tagMapGet tm e.1 then (p.1, p.2 + e.2) else p))
      (fun c t htc => by
        have hkeys : (m.map (fun p =>
            if p.1 ∈ tagMapGet tm e.1 then (p.1, p.2 + e.2) else p)).map
              Prod.fst = m.map Prod.fst := by
          rw [List.map_map]
          apply List.map_congr_left
          intro p _
          simp only [Function.comp]
          split <;> simp
        rw [hkeys]
        exact hsub c t htc)]
    congr 1
    rw [List.map_map]
    apply List.map_congr_left
    intro p _
    simp only [Function.comp]
    by_cases hpe : p.1 ∈ tagMapGet tm e.1
    · rw [if_pos hpe]
      simp only [List.filter_cons]
      rw [if_pos (by
        simp only [List.contains, List.elem_iff]
        exact hpe)]
      simp [add_assoc]
    · rw [if_neg hpe]
      simp only [List.filter_cons]
      rw [if_neg (by
        simp only [List.contains, List.elem_iff]
        exact hpe)]

/-- The keys of the zero-initialized map are exactly the sorted keys. -/
theorem keys_zeroMap (ks : List String) :
    (zeroMap ks).map Prod.fst = sortedKeys ks := by
  unfold zeroMap
  rw [List.map_map, show (Prod.fst ∘ fun k => (k, (0 : Int))) = id from rfl,
    List.map_id]

/-- `tag_sums` succeeds and equals its spec-side formulation, for states
whose tag map mentions only registered tags, without duplicates. -/
theorem tagSums_eq_spec (st : DashboardState)
    (H1 : ∀ p ∈ st.tag_map, ∀ t ∈ p.2, t ∈ st.tags)
    (H2 : ∀ p ∈ st.tag_map, p.2.Nodup) :
    tagSums st = some (tagSumsSpec st) := by
  have hsub : ∀ c t, t ∈ tagMapGet st.tag_map c →
      t ∈ (zeroMap st.tags).map Prod.fst := by
    intro c t ht
    obtain ⟨p, hp, _, htp⟩ := mem_tagMapGet st.tag_map c t ht
    rw [keys_zeroMap]
    exact (mem_sortedKeys st.tags t).mpr (H1 p hp t htp)
  have hnd : ∀ c, (tagMapGet st.tag_map c).Nodup := by
    intro c
    rw [tagMapGet, mapGet]
    cases hfind : st.tag_map.find? (fun p => decide (p.1 = c)) with
    | none => exact List.nodup_nil
    | some p => exact H2 p (List.mem_of_find?_eq_some hfind)
  unfold tagSums tagSumsSpec
  rw [tagSums_fold (categorySums st) (zeroMap st.tags) st.tag_map hsub hnd]
  unfold zeroMap
  rw [List.map_map, List.map_map]
  congr 1
  apply List.map_congr_left
  intro k _
  simp

/-! ### C7 — wrap-aware time subtraction -/

/-- C7: subtraction of two valid `SimpleTime`s is the difference of their
minutes-since-midnight, plus 1440 when that difference is negative
(equivalently, the difference modulo 1440); it is never negative, and
`07:00−07:00 = 0`, `08:30−07:00 = 90`, `01:00−23:00 = 120` minutes. -/
theorem simpletime_sub_wrap (a b : SimpleTime)
    (ha : a.hour < 24 ∧ a.minute < 60)
    (hb : b.hour < 24 ∧ b.minute < 60) :
    a.sub b =
      (a.totalMinutes - b.totalMinutes) +
        (if a.totalMinutes - b.totalMinutes < 0 then 1440 else 0)
    ∧ a.sub b = (a.totalMinutes - b.totalMinutes) % 1440
    ∧ 0 ≤ a.sub b
    ∧ SimpleTime.sub ⟨7, 0⟩ ⟨7, 0⟩ = 0
    ∧ SimpleTime.sub ⟨8, 30⟩ ⟨7, 0⟩ = 90
    ∧ SimpleTime.sub ⟨1, 0⟩ ⟨23, 0⟩ = 120 := by
  obtain ⟨ha1, ha2⟩ := ha
  obtain ⟨hb1, hb2⟩ := hb
  refine ⟨?_, ?_, ?_, by decide, by decide, by decide⟩ <;>
    simp only [SimpleTime.sub, SimpleTime.totalMinutes] <;> omega

/-- Witness for C7 at the midnight-wrap example `01:00 − 23:00`. -/
theorem simpletime_sub_wrap_witness :
    (0 : Int) ≤ SimpleTime.sub ⟨1, 0⟩ ⟨23, 0⟩ :=
  (simpletime_sub_wrap ⟨1, 0⟩ ⟨23, 0⟩ (by decide) (by decide)).2.2.1

/-! ### C5 — the migration chain -/

/-- C5: for each historical revision, `extract` succeeds within the
three-step upgrade budget, carries every old field over unchanged, puts
every later-added field at its documented empty default, and reports
`true` exactly when the input was not already `V4`. -/
theorem extract_upgrade_chain (d1 : SaveDataV1) (d2 : SaveDataV2)
    (d3 : SaveDataV3) (d4 : SaveDataV4) :
    SaveDataVersioned.extract (.v1 d1) =
      some ({ categories := d1.categories, archived_categories := ⟨[]⟩,
              tags := [], tag_map := [], events := d1.events,
              daily_notes := [] }, true)
    ∧ SaveDataVersioned.extract (.v2 d2) =
      some ({ categories := d2.categories,
              archived_categories := d2.archived_categories,
              tags := [], tag_map := [], events := d2.events,
              daily_notes := [] }, true)
    ∧ SaveDataVersioned.extract (.v3 d3) =
      some ({ categories := d3.categories,
              archived_categories := d3.archived_categories,
              tags := d3.tags, tag_map := d3.tag_map, events := d3.events,
              daily_notes := [] }, true)
    ∧ SaveDataVersioned.extract (.v4 d4) = some (d4, false)
    ∧ ∀ v : SaveDataVersioned,
        (SaveDataVersioned.upgradeLoop 3 v).isSome := by
  refine ⟨rfl, rfl, rfl, rfl, fun v => ?_⟩
  cases v <;> rfl

/-! ### C8 — `apply` is associative over concatenation -/

/-- C8: folding a concatenated intent list equals folding the first list
and, if it succeeded, folding the second from the resulting state; a
failure outcome (including its partially mutated state) is identical on
both sides. -/
theorem apply_append_assoc (s : SaveData) (a b : List DeltaItem) :
    applyList s (a ++ b) = (applyList s a).andThen b := by
  induction a generalizing s with
  | nil => rfl
  | cons d ds ih =>
    simp only [List.cons_append, applyList]
    cases applyItem s d <;> simp [ApplyResult.andThen, ih]

/-! ### C9 — header-cursor saturation -/

/-- Counterexample to C9 as stated: starting from position 0, four
`TabRight` messages leave the cursor at 3 (`FilterCategory::SIZE`), not at
the claimed position 4 one beyond the last filter column. -/
theorem header_cursor_counterexample :
    tabRight^[4] 0 = 3 ∧ tabRight^[4] 0 ≠ 4 := by
  constructor <;> decide

/-- C9 (amended): the header cursor saturates within
`[0, FilterCategory::SIZE]` where `FilterCategory::SIZE = 3`, the index of
the last filter column (`Description`) — not one position beyond it:
`TabLeft` at 0 stays at 0, both moves stay within the range, and repeated
`TabRight` from 0 stops at 3, never exceeding it. -/
theorem header_cursor_range (h n : Nat) (hh : h ≤ FilterCategory.SIZE)
    (hn : FilterCategory.SIZE ≤ n) :
    FilterCategory.SIZE = 3
    ∧ tabLeft 0 = 0
    ∧ tabLeft h ≤ FilterCategory.SIZE
    ∧ tabRight h ≤ FilterCategory.SIZE
    ∧ tabRight FilterCategory.SIZE = FilterCategory.SIZE
    ∧ tabRight^[n] 0 = FilterCategory.SIZE := by
  have key : ∀ k : Nat, tabRight^[k] 0 = min k FilterCategory.SIZE := by
    intro k
    induction k with
    | zero => simp
    | succ k ih =>
      rw [Function.iterate_succ_apply', ih]
      simp only [tabRight, FilterCategory.SIZE]
      omega
  refine ⟨rfl, rfl, ?_, ?_, rfl, ?_⟩
  · simp only [tabLeft, FilterCategory.SIZE] at *; omega
  · simp only [tabRight, FilterCategory.SIZE] at *; omega
  · rw [key]; simp only [FilterCategory.SIZE] at *; omega

/-- Witness for C9 (amended) at `h = 2`, `n = 5`. -/
theorem header_cursor_range_witness :
    FilterCategory.SIZE = 3
    ∧ tabLeft 0 = 0
    ∧ tabLeft 2 ≤ FilterCategory.SIZE
    ∧ tabRight 2 ≤ FilterCategory.SIZE
    ∧ tabRight FilterCategory.SIZE = FilterCategory.SIZE
    ∧ tabRight^[5] 0 = FilterCategory.SIZE :=
  header_cursor_range 2 5 (by decide) (by decide)

/-! ### C1 — out-of-bounds `ChangeEvent` -/

/-- Counterexample to C1 as stated: on the empty state, `ChangeEvent` at
index 0 makes `apply` panic from the out-of-bounds slice index; the call
does not return an `Err` result as the claim asserts. -/
theorem changeEvent_oob_not_error_counterexample :
    applyItem SaveData.empty (.changeEvent 0 exEvent) =
      .panicked indexOutOfBoundsMsg SaveData.empty
    ∧ (applyItem SaveData.empty (.changeEvent 0 exEvent)).isError = false := by
  constructor <;> rfl

/-- C1 (amended): an out-of-bounds `ChangeEvent` surfaces as a distinct
failure — a panic from the out-of-bounds index, not a returned error
result — and neither clamps the index, nor succeeds as a no-op, nor
modifies any event (the state at the panic is the input state
unchanged). -/
theorem changeEvent_oob_is_panic (s : SaveData) (i : Nat) (e : Event)
    (h : s.events.length ≤ i) :
    applyItem s (.changeEvent i e) = .panicked indexOutOfBoundsMsg s
    ∧ (applyItem s (.changeEvent i e)).isError = false := by
  have hlt : ¬ i < s.events.length := by omega
  constructor
  · simp [applyItem, hlt]
  · simp [applyItem, hlt, ApplyResult.isError]

/-- Witness for C1 (amended) on the empty state at index 0. -/
theorem changeEvent_oob_is_panic_witness :
    applyItem SaveData.empty (.changeEvent 0 exEvent) =
      .panicked indexOutOfBoundsMsg SaveData.empty
    ∧ (applyItem SaveData.empty (.changeEvent 0 exEvent)).isError = false :=
  changeEvent_oob_is_panic SaveData.empty 0 exEvent (by decide)

/-! ### C6 — the aggregation engine -/

/-- C6: for any dashboard state whose tag map mentions only registered
tags and has duplicate-free entries: (a) the per-category aggregation is
exactly every active category, in sorted order, with the total of its
matching filtered events (zero when none match, never absent); (b) the
per-tag aggregation succeeds and is exactly every registered tag, in
sorted order, with the sum of the already-computed totals of the
categories whose tag-map entry contains it; (c) the displayed `all` total
is the sum of all per-category totals; (d) both listings are strictly
sorted lexicographically by name. -/
theorem aggregation_engine_correct (st : DashboardState)
    (H1 : ∀ p ∈ st.tag_map, ∀ t ∈ p.2, t ∈ st.tags)
    (H2 : ∀ p ∈ st.tag_map, p.2.Nodup) :
    categorySums st = categorySumsSpec st
    ∧ tagSums st = some (tagSumsSpec st)
    ∧ allTotal st = ((categorySums st).map Prod.snd).sum
    ∧ (categorySums st).Pairwise (fun p q => p.1 < q.1)
    ∧ (tagSumsSpec st).Pairwise (fun p q => p.1 < q.1) := by
  refine ⟨categorySums_eq_spec st, tagSums_eq_spec st H1 H2, rfl, ?_, ?_⟩
  · rw [categorySums_eq_spec st]
    unfold categorySumsSpec zeroMap
    rw [List.map_map, List.pairwise_map]
    exact pairwise_sortedKeys _
  · unfold tagSumsSpec zeroMap
    rw [List.map_map, List.pairwise_map]
    exact pairwise_sortedKeys _

/-- Witness for C6 on the concrete state `wfDash`. -/
theorem aggregation_engine_correct_witness :
    categorySums wfDash = categorySumsSpec wfDash
    ∧ tagSums wfDash = some (tagSumsSpec wfDash)
    ∧ allTotal wfDash = ((categorySums wfDash).map Prod.snd).sum
    ∧ (categorySums wfDash).Pairwise (fun p q => p.1 < q.1)
    ∧ (tagSumsSpec wfDash).Pairwise (fun p q => p.1 < q.1) :=
  aggregation_engine_correct wfDash (by decide) (by decide)

/-! ### C2 — archived categories and aggregation -/

/-- Counterexample to C2 as stated: in `archivedDash` the only event's
category `"Work"` is archived; the event passes the (empty) filter and
lasts 510 minutes, yet the per-category aggregation is empty — `"Work"`
has no entry, rather than the claimed 510-minute entry — and the overall
total is 0, not 510. -/
theorem archived_category_not_summed_counterexample :
    filteredEvents archivedDash = [exEvent]
    ∧ exEvent.duration = 510
    ∧ categorySums archivedDash = []
    ∧ getVal (categorySums archivedDash) "Work" = none
    ∧ allTotal archivedDash = 0 := by
  refine ⟨?_, ?_, ?_, ?_, ?_⟩ <;> decide

/-- C2 (amended): archiving a category leaves the recorded events entirely
unchanged (in particular each event's category field), but the dashboard
aggregation map is keyed by the *active* categories only: a category that
is not active has no entry in the per-category aggregation, so events
carrying it contribute neither a per-category total nor anything to the
displayed overall total (which sums the per-category entries). -/
theorem archive_keeps_history_not_totals (s s' : SaveData) (c : String)
    (st : DashboardState)
    (hok : applyItem s (.archiveCategory c) = .ok s')
    (hc : c ∉ st.categories.options) :
    s'.events = s.events ∧ getVal (categorySums st) c = none := by
  constructor
  · simp only [applyItem, ApplyResult.ok.injEq] at hok
    rw [← hok]
  · rw [categorySums_eq_spec]
    unfold categorySumsSpec zeroMap
    rw [List.map_map,
      show ((fun p => (p.1, sumOfCategory (filteredEvents st) p.1)) ∘
          (fun k => (k, (0 : Int)))) =
        (fun k => (k, sumOfCategory (filteredEvents st) k)) from rfl,
      getVal_map_of_keys]
    rw [if_neg (fun hmem => hc ((mem_sortedKeys _ _).mp hmem))]

/-- Witness for C2 (amended): archiving `"Work"` out of `preArchive`. -/
theorem archive_keeps_history_not_totals_witness :
    postArchive.events = preArchive.events
    ∧ getVal (categorySums archivedDash) "Work" = none :=
  archive_keeps_history_not_totals preArchive postArchive "Work"
    archivedDash (by decide) (by decide)

/-! ### C4 — disjointness of active and archived categories -/

/-- Counterexample to C4 as stated: from the empty state,
`AddCategory "a"`, then `ArchiveCategory "a"`, then `AddCategory "a"`
again succeeds and leaves `"a"` in *both* the active and the archived
set — `AddCategory` checks only the active set. -/
theorem disjoint_sets_counterexample :
    applyList SaveData.empty
        [.addCategory "a", .archiveCategory "a", .addCategory "a"]
      = .ok bothSetsA
    ∧ disjointCats bothSetsA = false := by
  constructor <;> decide

theorem disjointCats_iff (s : SaveData) :
    disjointCats s = true ↔
      ∀ c ∈ s.categories.options, c ∉ s.archived_categories.options := by
  unfold disjointCats
  simp [List.all_eq_true, List.contains, List.elem_iff]

/-- One successful `apply` step that does not re-add an archived name
preserves disjointness of the active and archived category sets. -/
theorem disjointCats_step (s s' : SaveData) (d : DeltaItem)
    (hg : readdsArchived s d = false)
    (hok : applyItem s d = .ok s')
    (hd : disjointCats s = true) : disjointCats s' = true := by
  rw [disjointCats_iff] at hd ⊢
  cases d with
  | addCategory c =>
    simp only [applyItem] at hok
    split at hok
    · cases hok
      exact hd
    · cases hok
      intro x hx
      rcases List.mem_append.mp hx with hx | hx
      · exact hd x hx
      · have hxc : x = c := by simpa using hx
        subst hxc
        simp only [readdsArchived, List.contains, List.elem_iff] at hg
        simpa [List.elem_iff] using hg
  | renameCategory old new => simp [applyItem] at hok
  | archiveCategory c =>
    simp only [applyItem] at hok
    cases hok
    intro x hx
    have hx' := List.mem_filter.mp hx
    have hxc : x ≠ c := by simpa using hx'.2
    intro hmem
    rcases List.mem_append.mp hmem with hm | hm
    · exact hd x hx'.1 hm
    · exact hxc (by simpa using hm)
  | addEvent e =>
    simp only [applyItem] at hok
    cases hok
    exact hd
  | changeEvent i e =>
    simp only [applyItem] at hok
    split at hok
    · cases hok
      exact hd
    · cases hok
  | addTag t =>
    simp only [applyItem] at hok
    split at hok
    · cases hok
      exact hd
    · cases hok
      exact hd
  | tagCategory c t =>
    simp only [applyItem] at hok
    split at hok
    · split at hok
      · cases hok
        split <;> exact hd
      · cases hok
        split <;> exact hd
    · cases hok
  | setDailyNote dt n =>
    simp only [applyItem] at hok
    cases hok
    exact hd

/-- C4 (amended): the active and archived category sets stay disjoint
along every successfully applied intent sequence from the empty state in
which no `AddCategory` targets a name that is archived at the moment of
application; `ArchiveCategory` itself always preserves disjointness, but
(as the counterexample shows) re-adding an archived name breaks it. -/
theorem category_sets_disjoint (ds : List DeltaItem) (s : SaveData)
    (h : GoodApply SaveData.empty ds s) : disjointCats s = true := by
  have general : ∀ s₀ ds' s₁, GoodApply s₀ ds' s₁ →
      disjointCats s₀ = true → disjointCats s₁ = true := by
    intro s₀ ds' s₁ hg
    induction hg with
    | nil s => exact fun hd => hd
    | cons s sm se d rest hgd hok _ ih =>
      exact fun hd => ih (disjointCats_step s sm d hgd hok hd)
  exact general _ _ _ h (by decide)

/-- Witness for C4 (amended): add `"a"`, archive `"a"`, then add a fresh
name `"b"`. -/
theorem category_sets_disjoint_witness : disjointCats c4s3 = true :=
  category_sets_disjoint
    [.addCategory "a", .archiveCategory "a", .addCategory "b"] c4s3
    (.cons SaveData.empty c4s1 c4s3 _ _ (by decide) (by decide)
      (.cons c4s1 c4s2 c4s3 _ _ (by decide) (by decide)
        (.cons c4s2 c4s3 c4s3 _ _ (by decide) (by decide) (.nil c4s3))))

/-! ### C10 — `SimpleTime` display/parse round trip -/

/-- Every valid time survives the display→parse round trip. -/
theorem roundtrip_all : ∀ h : Nat, h < 24 → ∀ m : Nat, m < 60 →
    SimpleTime.from_str (SimpleTime.display ⟨h, m⟩) = some ⟨h, m⟩ := by
  decide

/-- `try_new` only accepts valid hour/minute pairs. -/
theorem try_new_valid (h m : Nat) (t : SimpleTime)
    (htn : SimpleTime.try_new h m = some t) :
    t.hour < 24 ∧ t.minute < 60 := by
  unfold SimpleTime.try_new at htn
  split at htn
  · rename_i hcond
    cases htn
    exact hcond
  · cases htn

/-- `from_str` only ever constructs validated values. -/
theorem from_str_valid (cs : List Char) (t : SimpleTime)
    (hp : SimpleTime.from_str cs = some t) :
    t.hour < 24 ∧ t.minute < 60 := by
  unfold SimpleTime.from_str at hp
  split at hp
  · rename_i idx hidx
    simp only [Option.bind_eq_bind, Option.some_bind] at hp
    cases hh : parseU8 (cs.take idx) with
    | none =>
      rw [hh] at hp
      simp at hp
    | some h =>
      rw [hh] at hp
      simp only [Option.some_bind] at hp
      cases hm : parseU8 ((cs.drop idx).drop 1) with
      | none =>
        rw [hm] at hp
        simp at hp
      | some m =>
        rw [hm] at hp
        simp only [Option.some_bind] at hp
        exact try_new_valid h m t hp
  · split at hp
    · simp only [Option.bind_eq_bind, Option.some_bind] at hp
      cases hh : parseU8 (cs.take 2) with
      | none =>
        rw [hh] at hp
        simp at hp
      | some h =>
        rw [hh] at hp
        simp only [Option.some_bind] at hp
        cases hm : parseU8 (cs.drop 2) with
        | none =>
          rw [hm] at hp
          simp at hp
        | some m =>
          rw [hm] at hp
          simp only [Option.some_bind] at hp
          exact try_new_valid h m t hp
    · simp at hp

/-- C10: parsing the zero-padded `"HH:MM"` display of any valid
`SimpleTime` succeeds and returns the same value; any string that parses
at all yields a validated value (hour < 24, minute < 60) — in particular a
string with hour ≥ 24 or minute ≥ 60, like `"25:00"`, fails to parse
rather than constructing a value. -/
theorem simpletime_roundtrip (h m : Nat) (cs : List Char) (t : SimpleTime)
    (hh : h < 24) (hm : m < 60) (hp : SimpleTime.from_str cs = some t) :
    SimpleTime.from_str (SimpleTime.display ⟨h, m⟩) = some ⟨h, m⟩
    ∧ t.hour < 24 ∧ t.minute < 60
    ∧ SimpleTime.from_str ['2', '5', ':', '0', '0'] = none :=
  ⟨roundtrip_all h hh m hm, (from_str_valid cs t hp).1,
    (from_str_valid cs t hp).2, by decide⟩

/-- Witness for C10 at `07:30`. -/
theorem simpletime_roundtrip_witness :
    SimpleTime.from_str (SimpleTime.display ⟨7, 30⟩) = some ⟨7, 30⟩
    ∧ (SimpleTime.mk 7 30).hour < 24 ∧ (SimpleTime.mk 7 30).minute < 60
    ∧ SimpleTime.from_str ['2', '5', ':', '0', '0'] = none :=
  simpletime_roundtrip 7 30 ['0', '7', ':', '3', '0'] ⟨7, 30⟩
    (by decide) (by decide) (by decide)

/-! ### C3 — the persistence protocol of `main` -/

/-- Counterexample to C3 as stated: with the save file initially holding
category `"A"` and no events, a concurrent invocation records `exEvent2`
before our write; the user's session records `exEvent`.  The code writes
`[exEvent]` — identical to what it writes when no concurrent change
happened at all, because `main` never re-reads the file — whereas the
claimed reload-then-apply protocol (`specPersistence`) would write
`[exEvent2, exEvent]`. -/
theorem main_reload_missing_counterexample :
    mainRun (some initialV1) (some concurrentV1) sessMain
      = some (.v1 ⟨⟨["A"]⟩, [exEvent]⟩)
    ∧ mainRun (some initialV1) (some concurrentV1) sessMain
      = mainRun (some initialV1) (some initialV1) sessMain
    ∧ specPersistence (some (.v1 ⟨⟨["A"]⟩, []⟩))
        (some (.v1 ⟨⟨["A"]⟩, [exEvent2]⟩)) sessSpec
      = some { SaveData.empty with
               categories := ⟨["A"]⟩
               events := [exEvent2, exEvent] }
    ∧ ([exEvent] : List Event) ≠ [exEvent2, exEvent] := by
  refine ⟨?_, ?_, ?_, ?_⟩ <;> decide

/-- C3 (amended): `main` loads the save file once, before the interactive
phase; the interactive phase returns the updated full state (no intent
list is produced and no reload happens — the written result is a function
of the initially loaded state alone, identical for any contents a reload
would have seen); the write that does happen goes to the sibling
temporary file `new_save.json`, which is then renamed over the save
file. -/
theorem main_persistence_no_reload
    (read1 readA readB : Option MainVersioned)
    (interact : SaveDataV1 → Option SaveDataV1) :
    mainRun read1 readA interact = mainRun read1 readB interact
    ∧ mainRun read1 readA interact =
        (interact (mainLoad read1)).map MainVersioned.v1
    ∧ mainFileOps read1 readA interact =
        (match (interact (mainLoad read1)).map MainVersioned.v1 with
         | some w => [.create "new_save.json", .writeAll "new_save.json" w,
                      .rename "new_save.json" "save.json"]
         | none => []) := by
  cases hi : interact (mainLoad read1) <;>
    simp [mainRun, mainFileOps, hi]

end Theorems

end Taskit
